import Mathlib

/-!
Shallow embedding of `tools/bench_compare.py`.

The tool reads JSON files of benchmark records, groups records by scenario,
and prints a fixed-width comparison table per scenario together with ratio
lines against the `(rust, rust)` reference record.

Modelling conventions:
* Parsed JSON documents (the results of `json.load`) are values of `JValue`;
  JSON numbers parse to Python `int` or `float`, kept apart as `JValue.int`
  and `JValue.float`, with `float` modelled by exact rationals.
* A Python dict (JSON object) is an association list with distinct keys, as
  produced by the JSON parser; `dictGet` is `dict.get`.
* `mainRun` receives the command-line paths already paired with their parsed
  documents; file-system and JSON-syntax errors are outside the model.
  A run either produces the full stdout line list and an exit code, or an
  `Except.error` for an uncaught Python exception (which exits non-zero).
  The model is used for successful runs and for errors raised during loading
  and grouping, which in the source occur before the first `print`.
* Python `str.format` fixed-point formatting rounds the exact value half to
  even, which `fmtFixed` does on rationals.
-/

namespace BenchCompare

/-- Parsed Python/JSON value, as returned by `json.load`. -/
inductive JValue where
  | null
  | bool (b : Bool)
  | int (n : Int)
  | float (q : ℚ)
  | str (s : String)
  | arr (elems : List JValue)
  | obj (fields : List (String × JValue))

/-- A Python dict with string keys, i.e. a JSON object. -/
abbrev Dict := List (String × JValue)

mutual

/-- Python `==` on parsed JSON values: numbers (and bools, which are ints in
Python) compare numerically across `int`/`float`; containers elementwise. -/
def beqJ : JValue → JValue → Bool
  | .null, .null => true
  | .bool a, .bool b => a == b
  | .bool a, .int b => (if a then (1 : Int) else 0) == b
  | .bool a, .float b => (if a then (1 : ℚ) else 0) == b
  | .int a, .bool b => a == (if b then (1 : Int) else 0)
  | .int a, .int b => a == b
  | .int a, .float b => (a : ℚ) == b
  | .float a, .bool b => a == (if b then (1 : ℚ) else 0)
  | .float a, .int b => a == (b : ℚ)
  | .float a, .float b => a == b
  | .str a, .str b => a == b
  | .arr a, .arr b => beqJList a b
  | .obj a, .obj b => beqJFields a b
  | _, _ => false

def beqJList : List JValue → List JValue → Bool
  | [], [] => true
  | a :: as, b :: bs => beqJ a b && beqJList as bs
  | _, _ => false

def beqJFields : List (String × JValue) → List (String × JValue) → Bool
  | [], [] => true
  | (k, v) :: as, (l, w) :: bs => k == l && beqJ v w && beqJFields as bs
  | _, _ => false

end

/-- Python `d.get(key)` on a dict (keys are distinct, so first match). -/
def dictGet : Dict → String → Option JValue
  | [], _ => none
  | (k, v) :: rest, key => if k == key then some v else dictGet rest key

/-- Python `d.get(key, default)`. -/
def getField (r : Dict) (k : String) (d : JValue) : JValue :=
  (dictGet r k).getD d

/-- Python truthiness of a value. -/
def pyTruthy : JValue → Bool
  | .null => false
  | .bool b => b
  | .int n => n != 0
  | .float q => q != 0
  | .str s => s != ""
  | .arr xs => !xs.isEmpty
  | .obj fs => !fs.isEmpty

/-- Python `x or d`. -/
def pyOr (v d : JValue) : JValue := if pyTruthy v then v else d

/-- Truthiness of a dict (`if item:` on a record). -/
def pyTruthyDict (d : Dict) : Bool := !d.isEmpty

/-- Left-align a string in a field of width `w` (Python `:<w`). -/
def padR (s : String) (w : Nat) : String :=
  s ++ String.mk (List.replicate (w - s.length) ' ')

/-- Right-align a string in a field of width `w` (Python `:>w`). -/
def padL (s : String) (w : Nat) : String :=
  String.mk (List.replicate (w - s.length) ' ') ++ s

/-- Pad a digit string with leading zeros to length `n`. -/
def padZeros (s : String) (n : Nat) : String :=
  String.mk (List.replicate (n - s.length) '0') ++ s

/-- Round a rational to an integer, half to even: `f` is the floor of `q`
(`fdiv` is floor division and the denominator is positive) and `r` the
numerator of the fractional part, compared against one half via `2 r` vs
`d`. -/
def rhe (q : ℚ) : Int :=
  let n := q.num
  let d := (q.den : Int)
  let f := n.fdiv d
  let r := n - f * d
  if 2 * r < d then f
  else if d < 2 * r then f + 1
  else if f % 2 == 0 then f else f + 1

/-- Fixed-point rendering with `prec` decimals (Python `:.precf` on the exact
value), e.g. `fmtFixed 2 3 = "2.000"`. -/
def fmtFixed (q : ℚ) (prec : Nat) : String :=
  let m := rhe (q * ((10 : ℚ) ^ prec))
  let a := m.natAbs
  (if q < 0 then "-" else "")
    ++ toString (a / 10 ^ prec)
    ++ (if prec == 0 then "" else "." ++ padZeros (toString (a % 10 ^ prec)) prec)

/-- Python `format(v, str-of-width-and-f)`: fixed-point formatting of a value,
right-aligned; only numbers (and bools, which are ints) format, other types
raise `ValueError`. -/
def pyFormatF (v : JValue) (width prec : Nat) : Except String String :=
  match v with
  | .int n => .ok (padL (fmtFixed (n : ℚ) prec) width)
  | .float q => .ok (padL (fmtFixed q prec) width)
  | .bool b => .ok (padL (fmtFixed (if b then 1 else 0) prec) width)
  | _ => .error "ValueError: unsupported format string"

/-- Python `format(v, right-align-width)` with no type letter: ints render in
decimal, strings render as-is; other values modelled as a format error (floats
would render via `repr`, unused by the tool's record fields). -/
def pyFormatPad (v : JValue) (width : Nat) : Except String String :=
  match v with
  | .int n => .ok (padL (toString n) width)
  | .str s => .ok (padL s width)
  | .bool b => .ok (padL (if b then "1" else "0") width)
  | _ => .error "TypeError: unsupported format string"

/-- Source `format_row(label, target, item)`: three `item.get` calls
with defaults `0.0`, `0.0`, `0`, then the f-string with widths
`:<10 :<10 :>12.3f :>12.6f :>10`, formatted left to right. -/
def format_row (label target : String) (item : Dict) : Except String String := do
  let nsStr ← pyFormatF (getField item "ns_per_iter" (.float 0)) 12 3
  let tsStr ← pyFormatF (getField item "total_secs" (.float 0)) 12 6
  let itStr ← pyFormatPad (getField item "iters" (.int 0)) 10
  .ok (padR label 10 ++ (" " ++ (padR target 10 ++ (" " ++ (nsStr ++ (" " ++ (tsStr ++ (" " ++ itStr))))))))

/-- Source `load_file` applied to each path in order: the parsed document must be a JSON
array, otherwise `ValueError` naming the path; record lists concatenate in
argument order (`items.extend`). -/
def loadAll : List (String × JValue) → Except String (List JValue)
  | [] => .ok []
  | (p, v) :: rest =>
    match v with
    | .arr xs => (loadAll rest).map (fun items => xs ++ items)
    | _ => .error (p ++ " is not a JSON array")

/-- Every loaded element must be a dict: `item.get` on anything else raises
`AttributeError` in the scenario set comprehension, before any output. -/
def asDicts : List JValue → Except String (List Dict)
  | [] => .ok []
  | .obj fs :: rest => (asDicts rest).map (fun ds => fs :: ds)
  | _ :: _ => .error "AttributeError: item has no attribute get"

/-- Source `item.get("scenario", "")` as a sort key.  The source sorts the scenario
set with `sorted`, which needs comparable keys; the model requires string keys
(per the data model; Python would only tolerate non-strings when no string key
is present to compare against). -/
def scenarioKeyE (r : Dict) : Except String String :=
  match getField r "scenario" (.str "") with
  | .str s => .ok s
  | _ => .error "TypeError: scenario keys are not comparable"

/-- Scenario keys of all records, in load order. -/
def scenarioKeys : List Dict → Except String (List String)
  | [] => .ok []
  | r :: rest => do
    let k ← scenarioKeyE r
    let ks ← scenarioKeys rest
    .ok (k :: ks)

/-- Total version of the scenario key, for records whose key is a string. -/
def scenarioKeyD (r : Dict) : String :=
  match getField r "scenario" (.str "") with
  | .str s => s
  | _ => ""

/-- Python `<` on strings: lexicographic comparison of code points, a proper
prefix being smaller. -/
def charsLtB : List Char → List Char → Bool
  | _, [] => false
  | [], _ :: _ => true
  | a :: as, b :: bs =>
    if a.toNat < b.toNat then true
    else if b.toNat < a.toNat then false
    else charsLtB as bs

/-- Python `a < b` on strings, over their character sequences. -/
def strLtB (a b : String) : Bool := charsLtB a.data b.data

/-- Python `a <= b` on strings. -/
def strLeB (a b : String) : Bool := !strLtB b a

/-- Insert into a sorted list of strings. -/
def insertSorted (s : String) : List String → List String
  | [] => [s]
  | t :: ts => if strLeB s t then s :: t :: ts else t :: insertSorted s ts

/-- Insertion sort on strings. -/
def sortStrings : List String → List String
  | [] => []
  | s :: rest => insertSorted s (sortStrings rest)

/-- Source `sorted(set(keys))`: distinct scenario values in lexicographic order.
Python's `sorted` is a comparison sort; on the distinct key set the sorted
order is unique, so any sorting algorithm models it. -/
def sortScenarios (ks : List String) : List String :=
  sortStrings ks.dedup

/-- Source `by_scenario[s]`: the records of scenario `s`, in load order. -/
def groupOf (recs : List Dict) (s : String) : List Dict :=
  recs.filter (fun r => scenarioKeyD r == s)

/-- The hardcoded comparison order of (impl, target) pairs. -/
def order : List (String × String) :=
  [("rust", "rust"), ("moonbit", "native"), ("moonbit", "wasm-gc")]

/-- The lookup key of a record: `(e.get("impl"), e.get("target"))`; an absent
field gives Python `None`, which is also the parse of JSON `null`. -/
def keyOf (e : Dict) : JValue × JValue :=
  (getField e "impl" .null, getField e "target" .null)

/-- Python `==` on lookup keys. -/
def beqKey (a b : JValue × JValue) : Bool :=
  beqJ a.1 b.1 && beqJ a.2 b.2

/-- The key for a concrete (impl, target) string pair. -/
def strKey (i t : String) : JValue × JValue := (.str i, .str t)

/-- Source `lookup.get(k)` for the dict comprehension over entries: dict
construction overwrites in order, so the last entry with key `k` wins. -/
def lookupGet (entries : List Dict) (k : JValue × JValue) : Option Dict :=
  entries.foldl (fun acc e => if beqKey (keyOf e) k then some e else acc) none

/-- The column header line of each section. -/
def colHeader : String :=
  padR "impl" 10 ++ (" " ++ (padR "target" 10 ++ (" " ++ (padL "ns/iter" 12 ++ (" " ++ (padL "secs" 12 ++ (" " ++ padL "iters" 10)))))))

/-- The data rows of a section: for each pair in order, print the looked-up
record's row if the record is present (and truthy), else skip it. -/
def rowsFor (entries : List Dict) : List (String × String) → Except String (List String)
  | [] => .ok []
  | (i, t) :: rest => do
    let first ← (match lookupGet entries (strKey i t) with
      | some e =>
        if pyTruthyDict e then (format_row i t e).map (fun l => [l])
        else .ok ([] : List String)
      | none => .ok ([] : List String))
    let more ← rowsFor entries rest
    .ok (first ++ more)

/-- The text of a ratio line. -/
def ratioLine (i t : String) (q : ℚ) : String :=
  "ratio vs rust (" ++ (i ++ ("/" ++ (t ++ ("): " ++ (fmtFixed q 3 ++ "x")))))

/-- Python `x > 0.0` and `x / y` need numeric operands (bools are ints);
other types raise `TypeError`. -/
def toPyNum : JValue → Except String ℚ
  | .int n => .ok (n : ℚ)
  | .float q => .ok q
  | .bool b => .ok (if b then 1 else 0)
  | _ => .error "TypeError: unsupported operand types"

/-- The ratio loop body: for each non-rust pair in order with a truthy record,
if `rust_ns > 0.0` print the ratio of the candidate's `ns_per_iter` (default
`0.0`) to `rust_ns`. -/
def ratioCandidates (entries : List Dict) (rustNs : JValue) : List (String × String) → Except String (List String)
  | [] => .ok []
  | (i, t) :: rest =>
    if i == "rust" then ratioCandidates entries rustNs rest
    else do
      let first ← (match lookupGet entries (strKey i t) with
        | some e =>
          if pyTruthyDict e then do
            let rq ← toPyNum rustNs
            if 0 < rq then do
              let cq ← toPyNum (getField e "ns_per_iter" (.float 0))
              .ok [ratioLine i t (cq / rq)]
            else .ok ([] : List String)
          else .ok ([] : List String)
        | none => .ok ([] : List String))
      let more ← ratioCandidates entries rustNs rest
      .ok (first ++ more)

/-- The ratio block: only runs when the `(rust, rust)` record is present (and
truthy); `rust_ns` is its `ns_per_iter` (default `0.0`), with a falsy value
coalesced to `0.0` by `or 0.0`. -/
def ratioLinesOf (entries : List Dict) : Except String (List String) :=
  match lookupGet entries (strKey "rust" "rust") with
  | some re =>
    if pyTruthyDict re then
      ratioCandidates entries (pyOr (getField re "ns_per_iter" (.float 0)) (.float 0)) order
    else .ok []
  | none => .ok []

/-- One scenario section: header, column header, data rows, ratio lines, and
a trailing blank line. -/
def renderSection (scenario : String) (entries : List Dict) : Except String (List String) := do
  let rows ← rowsFor entries order
  let ratios ← ratioLinesOf entries
  .ok (("== " ++ scenario) :: colHeader :: (rows ++ ratios ++ [""]))

/-- All sections, in scenario order. -/
def renderAll (recs : List Dict) : List String → Except String (List String)
  | [] => .ok []
  | s :: rest => do
    let sec ← renderSection s (groupOf recs s)
    let more ← renderAll recs rest
    .ok (sec ++ more)

/-- The usage line printed when no paths are given. -/
def usageLine : String := "usage: bench_compare.py <json...>"

/-- Source `main`, over the command-line paths paired with their parsed documents.
Returns the printed lines and the exit code (`main` returns `2` for usage and
`None` otherwise, so `SystemExit(main())` exits 2 or 0), or the uncaught
exception message. -/
def mainRun (files : List (String × JValue)) : Except String (List String × Nat) :=
  match files with
  | [] => .ok ([usageLine], 2)
  | _ :: _ => do
    let items ← loadAll files
    let recs ← asDicts items
    let ks ← scenarioKeys recs
    let out ← renderAll recs (sortScenarios ks)
    .ok (out, 0)

/-! Spec-side definitions, following the specification's words: field values
with defaults, the expected row and ratio-line texts, and well-typedness of a
record per the data model (each field, when present, has its documented
type). -/

/-- Numeric field `k` of a record, defaulting to `0.0` when absent. -/
def specNum (r : Dict) (k : String) : ℚ :=
  match dictGet r k with
  | some (.int n) => (n : ℚ)
  | some (.float q) => q
  | _ => 0

/-- The record's `ns_per_iter` as a number, defaulting to `0.0` when absent. -/
def specNs (r : Dict) : ℚ := specNum r "ns_per_iter"

/-- The record's `total_secs` as a number, defaulting to `0.0` when absent. -/
def specTs (r : Dict) : ℚ := specNum r "total_secs"

/-- The record's `iters` as an integer, defaulting to `0` when absent. -/
def specIters (r : Dict) : Int :=
  match dictGet r "iters" with
  | some (.int n) => n
  | _ => 0

/-- Field `k` of `r` is absent or a number. -/
def numOrAbsent (r : Dict) (k : String) : Bool :=
  match dictGet r k with
  | none => true
  | some (.int _) => true
  | some (.float _) => true
  | _ => false

/-- Field `iters` of `r` is absent or an integer. -/
def itersOrAbsent (r : Dict) : Bool :=
  match dictGet r "iters" with
  | none => true
  | some (.int _) => true
  | _ => false

/-- The record's numeric fields, when present, have their documented types. -/
def validEntry (r : Dict) : Bool :=
  numOrAbsent r "ns_per_iter" && numOrAbsent r "total_secs" && itersOrAbsent r

/-- The record's `scenario` field, when present, is a string. -/
def validScenario (r : Dict) : Bool :=
  match dictGet r "scenario" with
  | none => true
  | some (.str _) => true
  | _ => false

/-- The fixed-width row for a record, as the specification describes it:
label and target left-aligned in 10, `ns_per_iter` right-aligned in 12 with
3 decimals, `total_secs` right-aligned in 12 with 6 decimals, `iters`
right-aligned in 10, with absent fields defaulted. -/
def rowText (label target : String) (r : Dict) : String :=
  padR label 10 ++ (" " ++ (padR target 10 ++ (" " ++ (padL (fmtFixed (specNs r) 3) 12 ++ (" " ++ (padL (fmtFixed (specTs r) 6) 12 ++ (" " ++ padL (toString (specIters r)) 10)))))))

/-- The data rows the specification prescribes for a scenario's entries: one
row per pair of the fixed order whose record is present, in that order. -/
def specRows (entries : List Dict) : List String :=
  order.filterMap (fun p => (lookupGet entries (strKey p.1 p.2)).map (rowText p.1 p.2))

/-- The ratio lines the specification prescribes: for each pair of the fixed
order other than `(rust, rust)`, a line appears exactly when both that pair's
record and the `(rust, rust)` record are present and the reference
`ns_per_iter` (default `0.0`) is strictly positive, and the line shows the
candidate-to-reference ratio to 3 decimals. -/
def specRatioLines (entries : List Dict) : List String :=
  (order.filter (fun p => p != ("rust", "rust"))).filterMap (fun p =>
    match lookupGet entries (strKey p.1 p.2), lookupGet entries (strKey "rust" "rust") with
    | some ce, some re =>
      if 0 < specNs re then some (ratioLine p.1 p.2 (specNs ce / specNs re)) else none
    | _, _ => none)

/-- Recognize a section header line: the line begins with the three
characters of the header marker. -/
def isHeaderLine (l : String) : Bool :=
  l.data.take 3 == ['=', '=', ' ']

/-- A (path, parsed document) input is fully valid per the data model: the
document is an array of objects whose typed fields are well-typed. -/
def validFile (pv : String × JValue) : Bool :=
  match pv.2 with
  | .arr xs => xs.all (fun v =>
      match v with
      | .obj fs => validEntry fs && validScenario fs
      | _ => false)
  | _ => false

/-- The document is a JSON array. -/
def isArr : JValue → Bool
  | .arr _ => true
  | _ => false

/-- The value is a JSON object (a Python dict). -/
def isObj : JValue → Bool
  | .obj _ => true
  | _ => false

/-- The elements of an array document (the records the loader returns). -/
def arrOf : JValue → List JValue
  | .arr xs => xs
  | _ => []

/-- The fields of an object value. -/
def objOf : JValue → Dict
  | .obj fs => fs
  | _ => []

/-! Basic lemmas about the embedding. -/

theorem ok_bind {α β : Type} (a : α) (f : α → Except String β) :
    (Except.ok a >>= f) = f a := rfl

theorem error_bind {α β : Type} (e : String) (f : α → Except String β) :
    ((Except.error e : Except String α) >>= f) = .error e := rfl

theorem map_ok {α β : Type} (f : α → β) (a : α) :
    Except.map f (Except.ok a : Except String α) = .ok (f a) := rfl

theorem getLast?_cons_eq_or {α : Type} (a : α) (l : List α) :
    (a :: l).getLast? = l.getLast?.or (some a) := by
  induction l generalizing a with
  | nil => rfl
  | cons b bs ih =>
    rw [List.getLast?_cons_cons, ih b]
    cases hbs : bs.getLast? <;> simp

theorem foldl_lookup_aux (k : JValue × JValue) (l : List Dict) :
    ∀ acc : Option Dict,
      l.foldl (fun acc e => if beqKey (keyOf e) k then some e else acc) acc
        = ((l.filter (fun e => beqKey (keyOf e) k)).getLast?).or acc := by
  induction l with
  | nil => intro acc; simp
  | cons e es ih =>
    intro acc
    rw [List.foldl_cons, ih]
    by_cases h : beqKey (keyOf e) k
    · simp only [List.filter_cons, h, if_pos, getLast?_cons_eq_or, Option.or_assoc,
        Option.or_some]
    · simp only [List.filter_cons, h, Bool.false_eq_true, if_neg, ite_false]

/-- The dict-comprehension lookup is last-write-wins: the value at `k` is the
last entry whose key equals `k`. -/
theorem lookupGet_eq_getLast (entries : List Dict) (k : JValue × JValue) :
    lookupGet entries k = (entries.filter (fun e => beqKey (keyOf e) k)).getLast? := by
  rw [lookupGet, foldl_lookup_aux]
  cases (entries.filter (fun e => beqKey (keyOf e) k)).getLast? <;> simp

theorem lookupGet_mem {entries : List Dict} {k : JValue × JValue} {e : Dict}
    (h : lookupGet entries k = some e) : e ∈ entries ∧ beqKey (keyOf e) k = true := by
  rw [lookupGet_eq_getLast] at h
  have hm := List.mem_of_getLast?_eq_some h
  exact (List.mem_filter.mp hm).imp id (fun h => h)

theorem beqJ_str_iff (v : JValue) (s : String) : beqJ v (.str s) = true ↔ v = .str s := by
  cases v <;> simp [beqJ]

/-- A record found under a string (impl, target) key carries those fields. -/
theorem lookupGet_strKey_fields {entries : List Dict} {i t : String} {e : Dict}
    (h : lookupGet entries (strKey i t) = some e) :
    dictGet e "impl" = some (.str i) ∧ dictGet e "target" = some (.str t) := by
  have hk := (lookupGet_mem h).2
  rw [beqKey, Bool.and_eq_true] at hk
  obtain ⟨h1, h2⟩ := hk
  rw [keyOf] at h1 h2
  simp only [strKey] at h1 h2
  rw [beqJ_str_iff] at h1 h2
  constructor
  · cases hd : dictGet e "impl" with
    | none => rw [getField, hd] at h1; exact absurd h1 (by simp)
    | some v => rw [getField, hd] at h1; simp at h1; rw [h1]
  · cases hd : dictGet e "target" with
    | none => rw [getField, hd] at h2; exact absurd h2 (by simp)
    | some v => rw [getField, hd] at h2; simp at h2; rw [h2]

/-- A record found under a string key is a non-empty dict, hence truthy. -/
theorem lookupGet_truthy {entries : List Dict} {i t : String} {e : Dict}
    (h : lookupGet entries (strKey i t) = some e) : pyTruthyDict e = true := by
  have h1 := (lookupGet_strKey_fields h).1
  cases e with
  | nil => exact absurd h1 (by simp [dictGet])
  | cons p rest => simp [pyTruthyDict]

/-! Field extraction on well-typed records. -/

theorem pyFormatF_getField {r : Dict} {k : String} (w p : Nat)
    (h : numOrAbsent r k = true) :
    pyFormatF (getField r k (.float 0)) w p = .ok (padL (fmtFixed (specNum r k) p) w) := by
  rw [numOrAbsent] at h
  rw [getField, specNum]
  cases hd : dictGet r k with
  | none => simp [pyFormatF]
  | some v => rw [hd] at h; cases v <;> simp_all [pyFormatF]

theorem pyFormatPad_iters {r : Dict} (w : Nat) (h : itersOrAbsent r = true) :
    pyFormatPad (getField r "iters" (.int 0)) w = .ok (padL (toString (specIters r)) w) := by
  rw [itersOrAbsent] at h
  rw [getField, specIters]
  cases hd : dictGet r "iters" with
  | none => simp [pyFormatPad]
  | some v => rw [hd] at h; cases v <;> simp_all [pyFormatPad]

theorem toPyNum_getField {r : Dict} {k : String} (h : numOrAbsent r k = true) :
    toPyNum (getField r k (.float 0)) = .ok (specNum r k) := by
  rw [numOrAbsent] at h
  rw [getField, specNum]
  cases hd : dictGet r k with
  | none => simp [toPyNum]
  | some v => rw [hd] at h; cases v <;> simp_all [toPyNum]

theorem toPyNum_pyOr {r : Dict} {k : String} (h : numOrAbsent r k = true) :
    toPyNum (pyOr (getField r k (.float 0)) (.float 0)) = .ok (specNum r k) := by
  rw [numOrAbsent] at h
  rw [getField, specNum]
  cases hd : dictGet r k with
  | none => simp [pyOr, pyTruthy, toPyNum]
  | some v =>
    rw [hd] at h
    cases v with
    | int n =>
      by_cases hn : n = 0
      · subst hn; simp [pyOr, pyTruthy, toPyNum]
      · simp [pyOr, pyTruthy, toPyNum, hn]
    | float q =>
      by_cases hq : q = 0
      · subst hq; simp [pyOr, pyTruthy, toPyNum]
      · simp [pyOr, pyTruthy, toPyNum, hq]
    | _ => simp_all

/-- On a well-typed record, `format_row` succeeds and yields the
specification's fixed-width row. -/
theorem format_row_eq {e : Dict} (l t : String) (h : validEntry e = true) :
    format_row l t e = .ok (rowText l t e) := by
  rw [validEntry, Bool.and_eq_true, Bool.and_eq_true] at h
  obtain ⟨⟨h1, h2⟩, h3⟩ := h
  rw [format_row, pyFormatF_getField 12 3 h1, ok_bind, pyFormatF_getField 12 6 h2,
    ok_bind, pyFormatPad_iters 10 h3, ok_bind, rowText, specNs, specTs]

/-! Characterization of the rendering pipeline on well-typed entries. -/

theorem rowsFor_eq {entries : List Dict} (hv : ∀ e ∈ entries, validEntry e = true)
    (ps : List (String × String)) :
    rowsFor entries ps
      = .ok (ps.filterMap (fun p => (lookupGet entries (strKey p.1 p.2)).map (rowText p.1 p.2))) := by
  induction ps with
  | nil => rfl
  | cons p rest ih =>
    obtain ⟨i, t⟩ := p
    rw [rowsFor]
    cases hl : lookupGet entries (strKey i t) with
    | none => simp [hl, ok_bind, ih, List.filterMap_cons]
    | some e =>
      have ht := lookupGet_truthy hl
      have hm := (lookupGet_mem hl).1
      simp [hl, ht, format_row_eq i t (hv e hm), map_ok, ok_bind, ih, List.filterMap_cons]

theorem ratioCandidates_eq {entries : List Dict} {rustNs : JValue} {rq : ℚ}
    (hv : ∀ e ∈ entries, validEntry e = true) (hn : toPyNum rustNs = .ok rq)
    (ps : List (String × String)) :
    ratioCandidates entries rustNs ps
      = .ok (ps.filterMap (fun p =>
          if p.1 == "rust" then none
          else
            match lookupGet entries (strKey p.1 p.2) with
            | some ce =>
              if 0 < rq then some (ratioLine p.1 p.2 (specNum ce "ns_per_iter" / rq)) else none
            | none => none)) := by
  induction ps with
  | nil => rfl
  | cons p rest ih =>
    obtain ⟨i, t⟩ := p
    rw [ratioCandidates]
    by_cases hi : i == "rust"
    · simp only [hi, if_pos, ih, List.filterMap_cons]
    · rw [if_neg hi]
      cases hl : lookupGet entries (strKey i t) with
      | none => simp only [hl, ok_bind, ih, List.filterMap_cons, hi, Bool.false_eq_true,
          if_neg, ite_false, List.nil_append]
      | some ce =>
        have ht := lookupGet_truthy hl
        have hmem := (lookupGet_mem hl).1
        have hns : numOrAbsent ce "ns_per_iter" = true := by
          have := hv ce hmem
          rw [validEntry, Bool.and_eq_true, Bool.and_eq_true] at this
          exact this.1.1
        by_cases hq : 0 < rq
        · simp only [hl, ht, if_pos, hn, ok_bind, hq, toPyNum_getField hns, ih,
            List.filterMap_cons, hi, Bool.false_eq_true, ite_false, ite_true,
            List.singleton_append]
        · simp only [hl, ht, if_pos, hn, ok_bind, hq, ih, List.filterMap_cons, hi,
            Bool.false_eq_true, ite_false, List.nil_append]

/-- On well-typed entries, the ratio block prints exactly the lines the
specification prescribes. -/
theorem ratioLinesOf_eq {entries : List Dict}
    (hv : ∀ e ∈ entries, validEntry e = true) :
    ratioLinesOf entries = .ok (specRatioLines entries) := by
  rw [ratioLinesOf]
  cases hre : lookupGet entries (strKey "rust" "rust") with
  | none =>
    rw [specRatioLines]
    cases h1 : lookupGet entries (strKey "moonbit" "native") <;>
      cases h2 : lookupGet entries (strKey "moonbit" "wasm-gc") <;>
        simp [order, List.filter, List.filterMap, h1, h2, hre]
  | some re =>
    have ht := lookupGet_truthy hre
    have hmem := (lookupGet_mem hre).1
    have hns : numOrAbsent re "ns_per_iter" = true := by
      have := hv re hmem
      rw [validEntry, Bool.and_eq_true, Bool.and_eq_true] at this
      exact this.1.1
    simp only [ht, if_true, ite_true,
      ratioCandidates_eq hv (toPyNum_pyOr hns) order, specRatioLines]
    cases h1 : lookupGet entries (strKey "moonbit" "native") <;>
      cases h2 : lookupGet entries (strKey "moonbit" "wasm-gc") <;>
        simp [order, List.filter, List.filterMap, h1, h2, hre, specNs]

/-- On well-typed entries, a section renders as: header, column header, the
specification's data rows, the specification's ratio lines, and a blank
line. -/
theorem renderSection_eq {entries : List Dict} (s : String)
    (hv : ∀ e ∈ entries, validEntry e = true) :
    renderSection s entries
      = .ok (("== " ++ s) :: colHeader :: (specRows entries ++ specRatioLines entries ++ [""])) := by
  rw [renderSection, rowsFor_eq hv order, ok_bind, ratioLinesOf_eq hv, ok_bind, specRows]

/-! Shape of printed lines, and recognition of section headers. -/

theorem bind_ok_inv {α β : Type} {x : Except String α} {f : α → Except String β} {b : β}
    (h : (x >>= f) = .ok b) : ∃ a, x = .ok a ∧ f a = .ok b := by
  cases x with
  | error e => rw [error_bind] at h; exact absurd h (by simp)
  | ok a => exact ⟨a, rfl, h⟩

theorem isHeaderLine_append (s t : String) (h : 3 ≤ s.data.length) :
    isHeaderLine (s ++ t) = isHeaderLine s := by
  rw [isHeaderLine, isHeaderLine, String.data_append, List.take_append_of_le_length h]

theorem isHeaderLine_header (s : String) : isHeaderLine ("== " ++ s) = true := by
  rw [isHeaderLine_append _ _ (by decide)]
  decide

theorem three_le_padR (i : String) : 3 ≤ (padR i 10).data.length := by
  rw [padR, String.data_append]
  simp only [List.length_append, List.length_replicate]
  have : i.length = i.data.length := rfl
  omega

theorem isHeaderLine_padR_append (i : String) (t : String)
    (h : isHeaderLine (padR i 10) = false) : isHeaderLine (padR i 10 ++ t) = false := by
  rw [isHeaderLine_append _ _ (three_le_padR i), h]

theorem isHeaderLine_ratio (rest : String) :
    isHeaderLine ("ratio vs rust (" ++ rest) = false := by
  rw [isHeaderLine_append _ _ (by decide)]
  decide

/-- A successful `format_row` output starts with the left-aligned label. -/
theorem format_row_shape {i t : String} {e : Dict} {line : String}
    (h : format_row i t e = .ok line) : ∃ s2, line = padR i 10 ++ s2 := by
  rw [format_row] at h
  cases h1 : pyFormatF (getField e "ns_per_iter" (.float 0)) 12 3 with
  | error m => rw [h1, error_bind] at h; exact absurd h (by simp)
  | ok ns =>
    rw [h1, ok_bind] at h
    cases h2 : pyFormatF (getField e "total_secs" (.float 0)) 12 6 with
    | error m => rw [h2, error_bind] at h; exact absurd h (by simp)
    | ok ts =>
      rw [h2, ok_bind] at h
      cases h3 : pyFormatPad (getField e "iters" (.int 0)) 10 with
      | error m => rw [h3, error_bind] at h; exact absurd h (by simp)
      | ok it =>
        rw [h3, ok_bind] at h
        exact ⟨_, by simpa using h.symm⟩

/-- Every data row produced by the row loop starts with a label of `ps`. -/
theorem rowsFor_mem_shape {entries : List Dict} {ps : List (String × String)}
    {rows : List String} (h : rowsFor entries ps = .ok rows) :
    ∀ l ∈ rows, ∃ p, p ∈ ps ∧ ∃ s2, l = padR p.1 10 ++ s2 := by
  induction ps generalizing rows with
  | nil =>
    rw [rowsFor] at h
    have : rows = [] := by simpa using h.symm
    subst this
    intro l hl
    exact absurd hl (by simp)
  | cons p rest ih =>
    obtain ⟨i, t⟩ := p
    rw [rowsFor] at h
    obtain ⟨first, hf, h2⟩ := bind_ok_inv h
    obtain ⟨more, hm, h3⟩ := bind_ok_inv h2
    have hrows : rows = first ++ more := by simpa using h3.symm
    subst hrows
    intro l hl
    rcases List.mem_append.mp hl with hfirst | hr
    · split at hf
      · rename_i e heq
        split at hf
        · cases hfr : format_row i t e with
          | error m => rw [hfr] at hf; exact absurd hf (by simp [Except.map])
          | ok line =>
            rw [hfr, map_ok] at hf
            have hfl : first = [line] := by simpa using hf.symm
            subst hfl
            have hll : l = line := by simpa using hfirst
            subst hll
            obtain ⟨s2, hs2⟩ := format_row_shape hfr
            exact ⟨(i, t), List.mem_cons_self _ _, s2, hs2⟩
        · have hfl : first = [] := by simpa using hf.symm
          subst hfl
          exact absurd hfirst (by simp)
      · have hfl : first = [] := by simpa using hf.symm
        subst hfl
        exact absurd hfirst (by simp)
    · obtain ⟨p, hp, hs⟩ := ih hm l hr
      exact ⟨p, List.mem_cons_of_mem _ hp, hs⟩

/-- Every line produced by the ratio loop starts with the ratio prefix. -/
theorem ratioCandidates_mem_shape {entries : List Dict} {rustNs : JValue}
    {ps : List (String × String)} {ls : List String}
    (h : ratioCandidates entries rustNs ps = .ok ls) :
    ∀ l ∈ ls, ∃ rest, l = "ratio vs rust (" ++ rest := by
  induction ps generalizing ls with
  | nil =>
    rw [ratioCandidates] at h
    have : ls = [] := by simpa using h.symm
    subst this
    intro l hl
    exact absurd hl (by simp)
  | cons p rest ih =>
    obtain ⟨i, t⟩ := p
    rw [ratioCandidates] at h
    by_cases hi : (i == "rust") = true
    · rw [hi, if_pos rfl] at h
      exact ih h
    · rw [if_neg (by simpa using hi)] at h
      obtain ⟨first, hf, h2⟩ := bind_ok_inv h
      obtain ⟨more, hm, h3⟩ := bind_ok_inv h2
      have hls : ls = first ++ more := by simpa using h3.symm
      subst hls
      intro l hl
      rcases List.mem_append.mp hl with hfirst | hr
      · split at hf
        · rename_i e heq
          split at hf
          · obtain ⟨rq, hrq, hf2⟩ := bind_ok_inv hf
            split at hf2
            · obtain ⟨cq, hcq, hf3⟩ := bind_ok_inv hf2
              have hfl : first = [ratioLine i t (cq / rq)] := by simpa using hf3.symm
              subst hfl
              have hll : l = ratioLine i t (cq / rq) := by simpa using hfirst
              subst hll
              exact ⟨_, rfl⟩
            · have hfl : first = [] := by simpa using hf2.symm
              subst hfl
              exact absurd hfirst (by simp)
          · have hfl : first = [] := by simpa using hf.symm
            subst hfl
            exact absurd hfirst (by simp)
        · have hfl : first = [] := by simpa using hf.symm
          subst hfl
          exact absurd hfirst (by simp)
      · exact ih hm l hr

theorem ratioLinesOf_mem_shape {entries : List Dict} {ls : List String}
    (h : ratioLinesOf entries = .ok ls) :
    ∀ l ∈ ls, ∃ rest, l = "ratio vs rust (" ++ rest := by
  rw [ratioLinesOf] at h
  split at h
  · rename_i re heq
    split at h
    · exact ratioCandidates_mem_shape h
    · have hls : ls = [] := by simpa using h.symm
      subst hls
      intro l hl
      exact absurd hl (by simp)
  · have hls : ls = [] := by simpa using h.symm
    subst hls
    intro l hl
    exact absurd hl (by simp)

/-- Within one rendered section, the only line recognized as a section header
is the section's own header. -/
theorem renderSection_filter {s : String} {entries : List Dict} {ls : List String}
    (h : renderSection s entries = .ok ls) :
    ls.filter isHeaderLine = ["== " ++ s] := by
  rw [renderSection] at h
  obtain ⟨rows, hr, h2⟩ := bind_ok_inv h
  obtain ⟨ratios, hrat, h3⟩ := bind_ok_inv h2
  have hls : ls = ("== " ++ s) :: colHeader :: (rows ++ ratios ++ [""]) := by
    simpa using h3.symm
  subst hls
  rw [List.filter_cons, List.filter_cons]
  rw [isHeaderLine_header]
  have hcol : isHeaderLine colHeader = false := by decide
  rw [hcol]
  have hnil : (rows ++ ratios ++ [""]).filter isHeaderLine = [] := by
    rw [List.filter_eq_nil_iff]
    intro l hl
    rcases List.mem_append.mp hl with hl2 | hlast
    · rcases List.mem_append.mp hl2 with hrow | hratio
      · obtain ⟨p, hp, s2, hs2⟩ := rowsFor_mem_shape hr l hrow
        subst hs2
        have : isHeaderLine (padR p.1 10) = false := by
          have : p = ("rust", "rust") ∨ p = ("moonbit", "native") ∨ p = ("moonbit", "wasm-gc") := by
            simpa [order] using hp
          rcases this with h | h | h <;> subst h <;> decide
        simp [isHeaderLine_padR_append _ _ this]
      · obtain ⟨rest, hrest⟩ := ratioLinesOf_mem_shape hrat l hratio
        subst hrest
        simp [isHeaderLine_ratio]
    · have : l = "" := by simpa using hlast
      subst this
      decide
  rw [hnil]
  simp

/-! Loader, grouper and sorter lemmas. -/

theorem isArr_iff (v : JValue) : isArr v = true ↔ ∃ xs, v = .arr xs := by
  cases v <;> simp [isArr]

theorem isObj_iff (v : JValue) : isObj v = true ↔ ∃ fs, v = .obj fs := by
  cases v <;> simp [isObj]

/-- When every document is an array, loading succeeds and concatenates the
files' records in argument order. -/
theorem loadAll_ok {files : List (String × JValue)}
    (h : ∀ pv ∈ files, isArr pv.2 = true) :
    loadAll files = .ok (files.flatMap (fun pv => arrOf pv.2)) := by
  induction files with
  | nil => rfl
  | cons pv rest ih =>
    obtain ⟨p, v⟩ := pv
    obtain ⟨xs, rfl⟩ := (isArr_iff v).mp (h (p, v) (List.mem_cons_self _ _))
    rw [loadAll, ih (fun pv hpv => h pv (List.mem_cons_of_mem _ hpv)), map_ok]
    simp [arrOf]

/-- Loading fails at the first non-array document, with an error naming its
path, regardless of documents before or after it. -/
theorem loadAll_error_first {files : List (String × JValue)} {p : String} {v : JValue}
    (h : files.find? (fun pv => !isArr pv.2) = some (p, v)) :
    loadAll files = .error (p ++ " is not a JSON array") := by
  induction files with
  | nil => simp at h
  | cons pv rest ih =>
    obtain ⟨p0, v0⟩ := pv
    by_cases hb : (!isArr v0) = true
    · simp only [List.find?_cons, hb] at h
      obtain ⟨rfl, rfl⟩ : p0 = p ∧ v0 = v := by simpa using h
      cases v0 <;> simp_all [isArr, loadAll]
    · have hb2 : isArr v0 = true := by simpa using hb
      simp only [List.find?_cons, hb2] at h
      obtain ⟨xs, rfl⟩ := (isArr_iff v0).mp hb2
      rw [loadAll, ih h]
      rfl

/-- When every record is a dict, the conversion to dicts succeeds. -/
theorem asDicts_ok {items : List JValue} (h : ∀ v ∈ items, isObj v = true) :
    asDicts items = .ok (items.map objOf) := by
  induction items with
  | nil => rfl
  | cons v rest ih =>
    obtain ⟨fs, rfl⟩ := (isObj_iff v).mp (h v (List.mem_cons_self _ _))
    rw [asDicts, ih (fun v hv => h v (List.mem_cons_of_mem _ hv)), map_ok]
    simp [objOf]

/-- A non-dict record makes grouping fail with an attribute error. -/
theorem asDicts_error {items : List JValue}
    (h : ∃ v ∈ items, isObj v = false) :
    asDicts items = .error "AttributeError: item has no attribute get" := by
  induction items with
  | nil => simp at h
  | cons v rest ih =>
    obtain ⟨w, hw, hwo⟩ := h
    rcases List.mem_cons.mp hw with rfl | hwr
    · cases w <;> simp [isObj] at hwo <;> rfl
    · cases v with
      | obj fs => rw [asDicts, ih ⟨w, hwr, hwo⟩]; rfl
      | _ => rfl

theorem scenarioKeyE_ok {r : Dict} {k : String} (h : scenarioKeyE r = .ok k) :
    scenarioKeyD r = k := by
  rw [scenarioKeyE] at h
  split at h
  · rename_i s heq
    rw [scenarioKeyD, heq]
    simpa using h
  · exact absurd h (by simp)

theorem scenarioKeys_ok_map {recs : List Dict} {ks : List String}
    (h : scenarioKeys recs = .ok ks) : ks = recs.map scenarioKeyD := by
  induction recs generalizing ks with
  | nil => simpa [scenarioKeys] using h.symm
  | cons r rest ih =>
    rw [scenarioKeys] at h
    obtain ⟨k, hk, h2⟩ := bind_ok_inv h
    obtain ⟨more, hm, h3⟩ := bind_ok_inv h2
    have : ks = k :: more := by simpa using h3.symm
    subst this
    rw [List.map_cons, ← scenarioKeyE_ok hk, ← ih hm]

/-- When every record's `scenario` field is well-typed, the key pass
succeeds. -/
theorem scenarioKeys_ok {recs : List Dict}
    (h : ∀ r ∈ recs, validScenario r = true) :
    scenarioKeys recs = .ok (recs.map scenarioKeyD) := by
  induction recs with
  | nil => rfl
  | cons r rest ih =>
    have hr : scenarioKeyE r = .ok (scenarioKeyD r) := by
      have hv := h r (List.mem_cons_self _ _)
      rw [validScenario] at hv
      rw [scenarioKeyE, scenarioKeyD, getField]
      cases hd : dictGet r "scenario" with
      | none => simp
      | some v => rw [hd] at hv; cases v <;> simp_all
    rw [scenarioKeys, hr, ok_bind, ih (fun r hr => h r (List.mem_cons_of_mem _ hr)), ok_bind,
      List.map_cons]

theorem charsLtB_asymm : ∀ (xs ys : List Char),
    charsLtB xs ys = true → charsLtB ys xs = false
  | _, [], h => by simp [charsLtB] at h
  | [], _ :: _, _ => by simp [charsLtB]
  | a :: as, b :: bs, h => by
    rw [charsLtB] at h ⊢
    by_cases h1 : a.toNat < b.toNat
    · rw [if_neg (by omega), if_pos h1]
    · rw [if_neg h1] at h
      by_cases h2 : b.toNat < a.toNat
      · rw [if_pos h2] at h; exact absurd h (by simp)
      · rw [if_neg h2] at h
        rw [if_neg h2, if_neg h1]
        exact charsLtB_asymm as bs h

theorem char_ofNat_eq {a b : Char} (h : a.toNat = b.toNat) : a = b := by
  have := congrArg Char.ofNat h
  rwa [Char.ofNat_toNat, Char.ofNat_toNat] at this

theorem charsLtB_trans : ∀ (xs ys zs : List Char),
    charsLtB xs ys = true → charsLtB ys zs = true → charsLtB xs zs = true
  | _, _, [], _, h2 => by simp [charsLtB] at h2
  | xs, [], _ :: _, h1, _ => by simp [charsLtB] at h1
  | [], _ :: _, _ :: _, _, _ => by simp [charsLtB]
  | a :: as, b :: bs, c :: cs, h1, h2 => by
    rw [charsLtB] at h1 h2 ⊢
    rcases Nat.lt_trichotomy a.toNat b.toNat with hab | hab | hab
    · by_cases hbc : b.toNat < c.toNat
      · rw [if_pos (by omega)]
      · rw [if_neg hbc] at h2
        by_cases hcb : c.toNat < b.toNat
        · rw [if_pos hcb] at h2; exact absurd h2 (by simp)
        · rw [if_pos (by omega)]
    · rw [if_neg (by omega), if_neg (by omega)] at h1
      by_cases hbc : b.toNat < c.toNat
      · rw [if_pos (by omega)]
      · rw [if_neg hbc] at h2
        by_cases hcb : c.toNat < b.toNat
        · rw [if_pos hcb] at h2; exact absurd h2 (by simp)
        · rw [if_neg hcb] at h2
          rw [if_neg (by omega), if_neg (by omega)]
          exact charsLtB_trans as bs cs h1 h2
    · rw [if_neg (by omega), if_pos hab] at h1
      exact absurd h1 (by simp)

theorem charsLtB_tri : ∀ (xs ys : List Char),
    charsLtB xs ys = true ∨ xs = ys ∨ charsLtB ys xs = true
  | [], [] => .inr (.inl rfl)
  | [], _ :: _ => .inl (by simp [charsLtB])
  | _ :: _, [] => .inr (.inr (by simp [charsLtB]))
  | a :: as, b :: bs => by
    rcases Nat.lt_trichotomy a.toNat b.toNat with h | h | h
    · exact .inl (by rw [charsLtB, if_pos h])
    · have hab : a = b := char_ofNat_eq h
      rcases charsLtB_tri as bs with h2 | h2 | h2
      · exact .inl (by rw [charsLtB, if_neg (by omega), if_neg (by omega)]; exact h2)
      · exact .inr (.inl (by rw [hab, h2]))
      · exact .inr (.inr (by rw [charsLtB, if_neg (by omega), if_neg (by omega)]; exact h2))
    · exact .inr (.inr (by rw [charsLtB, if_pos h]))

theorem string_data_inj {a b : String} (h : a.data = b.data) : a = b := by
  cases a
  cases b
  exact congrArg String.mk h

theorem strLtB_tri (a b : String) :
    strLtB a b = true ∨ a = b ∨ strLtB b a = true := by
  rcases charsLtB_tri a.data b.data with h | h | h
  · exact .inl h
  · exact .inr (.inl (string_data_inj h))
  · exact .inr (.inr h)

theorem strLeB_total (a b : String) : strLeB a b = true ∨ strLeB b a = true := by
  by_cases h : strLtB b a = true
  · right
    have h2 : strLtB a b = false := charsLtB_asymm b.data a.data h
    rw [strLeB, h2]
    rfl
  · left
    have h2 : strLtB b a = false := by
      cases hh : strLtB b a
      · rfl
      · exact absurd hh h
    rw [strLeB, h2]
    rfl

theorem strLeB_trans {a b c : String} (h1 : strLeB a b = true)
    (h2 : strLeB b c = true) : strLeB a c = true := by
  rw [strLeB, Bool.not_eq_true'] at h1 h2 ⊢
  by_contra hca
  have hca : strLtB c a = true := by
    cases h : strLtB c a
    · exact absurd h hca
    · rfl
  rcases strLtB_tri b c with h | h | h
  · have := charsLtB_trans b.data c.data a.data h hca
    rw [← strLtB] at this
    rw [this] at h1
    exact absurd h1 (by simp)
  · subst h
    rw [hca] at h1
    exact absurd h1 (by simp)
  · rw [h] at h2
    exact absurd h2 (by simp)

theorem strLeB_ne_lt {a b : String} (h : strLeB a b = true) (hne : a ≠ b) :
    strLtB a b = true := by
  rw [strLeB, Bool.not_eq_true'] at h
  rcases strLtB_tri a b with h2 | h2 | h2
  · exact h2
  · exact absurd h2 hne
  · rw [h2] at h
    exact absurd h (by simp)

theorem mem_insertSorted (x s : String) : ∀ (l : List String),
    x ∈ insertSorted s l ↔ x = s ∨ x ∈ l
  | [] => by simp [insertSorted]
  | t :: ts => by
    rw [insertSorted]
    by_cases h : strLeB s t = true
    · rw [if_pos h]
      simp [or_comm, or_left_comm, or_assoc]
    · rw [if_neg h]
      rw [List.mem_cons, mem_insertSorted x s ts, List.mem_cons]
      tauto

theorem insertSorted_perm (s : String) : ∀ (l : List String),
    List.Perm (insertSorted s l) (s :: l)
  | [] => List.Perm.refl _
  | t :: ts => by
    rw [insertSorted]
    by_cases h : strLeB s t = true
    · rw [if_pos h]
    · rw [if_neg h]
      exact ((insertSorted_perm s ts).cons t).trans (List.Perm.swap s t ts)

theorem sortStrings_perm : ∀ (l : List String), List.Perm (sortStrings l) l
  | [] => List.Perm.refl _
  | s :: rest =>
    (insertSorted_perm s (sortStrings rest)).trans ((sortStrings_perm rest).cons s)

theorem pairwise_insertSorted (s : String) : ∀ (l : List String),
    l.Pairwise (fun a b => strLeB a b = true) →
    (insertSorted s l).Pairwise (fun a b => strLeB a b = true)
  | [], _ => by simp [insertSorted]
  | t :: ts, h => by
    rw [insertSorted]
    obtain ⟨h1, h2⟩ := List.pairwise_cons.mp h
    by_cases hst : strLeB s t = true
    · rw [if_pos hst]
      refine List.pairwise_cons.mpr ⟨?_, h⟩
      intro y hy
      rcases List.mem_cons.mp hy with rfl | hy
      · exact hst
      · exact strLeB_trans hst (h1 y hy)
    · rw [if_neg hst]
      refine List.pairwise_cons.mpr ⟨?_, pairwise_insertSorted s ts h2⟩
      intro y hy
      rcases (mem_insertSorted y s ts).mp hy with h' | hy
      · rw [h']
        rcases strLeB_total s t with h2' | h2'
        · exact absurd h2' hst
        · exact h2'
      · exact h1 y hy

theorem sortStrings_pairwise : ∀ (l : List String),
    (sortStrings l).Pairwise (fun a b => strLeB a b = true)
  | [] => List.Pairwise.nil
  | s :: rest => pairwise_insertSorted s (sortStrings rest) (sortStrings_pairwise rest)

theorem sortScenarios_mem (ks : List String) (s : String) :
    s ∈ sortScenarios ks ↔ s ∈ ks := by
  rw [sortScenarios, (sortStrings_perm ks.dedup).mem_iff]
  exact List.mem_dedup

/-- The scenario sequence is strictly increasing in the code-point
lexicographic order: sorted with no duplicates. -/
theorem sortScenarios_sorted (ks : List String) :
    (sortScenarios ks).Pairwise (fun a b => strLtB a b = true) := by
  have hs : (sortScenarios ks).Pairwise (fun a b => strLeB a b = true) :=
    sortStrings_pairwise ks.dedup
  have hnd : (sortScenarios ks).Nodup :=
    (sortStrings_perm ks.dedup).symm.nodup (List.nodup_dedup ks)
  have := List.Pairwise.and hs hnd
  refine this.imp ?_
  intro a b h
  exact strLeB_ne_lt h.1 h.2

/-- All groups' members come from the record list. -/
theorem groupOf_sub {recs : List Dict} {s : String} {r : Dict}
    (h : r ∈ groupOf recs s) : r ∈ recs :=
  (List.mem_filter.mp h).1

theorem mem_groupOf {recs : List Dict} {s : String} {r : Dict} :
    r ∈ groupOf recs s ↔ r ∈ recs ∧ scenarioKeyD r = s := by
  rw [groupOf, List.mem_filter]
  simp

/-- Rendering the report succeeds on well-typed records. -/
theorem renderAll_ok {recs : List Dict} (hv : ∀ r ∈ recs, validEntry r = true)
    (scs : List String) : ∃ out, renderAll recs scs = .ok out := by
  induction scs with
  | nil => exact ⟨[], rfl⟩
  | cons s rest ih =>
    obtain ⟨more, hm⟩ := ih
    refine ⟨(("== " ++ s) :: colHeader ::
      (specRows (groupOf recs s) ++ specRatioLines (groupOf recs s) ++ [""])) ++ more, ?_⟩
    rw [renderAll, renderSection_eq s (fun e he => hv e (groupOf_sub he)), ok_bind, hm, ok_bind]

/-- The header lines of the whole report are exactly the scenario headers,
in order. -/
theorem renderAll_filter {recs : List Dict} {scs : List String} {out : List String}
    (h : renderAll recs scs = .ok out) :
    out.filter isHeaderLine = scs.map (fun s => "== " ++ s) := by
  induction scs generalizing out with
  | nil =>
    have : out = [] := by simpa [renderAll] using h.symm
    subst this
    rfl
  | cons s rest ih =>
    rw [renderAll] at h
    obtain ⟨sec, hs, h2⟩ := bind_ok_inv h
    obtain ⟨more, hm, h3⟩ := bind_ok_inv h2
    have : out = sec ++ more := by simpa using h3.symm
    subst this
    rw [List.filter_append, renderSection_filter hs, ih hm]
    rfl

/-! Inversion and success of the whole run. -/

theorem mainRun_ok_inv {files : List (String × JValue)} {out : List String} {c : Nat}
    (hne : files ≠ []) (h : mainRun files = .ok (out, c)) :
    ∃ items recs ks, loadAll files = .ok items ∧ asDicts items = .ok recs ∧
      scenarioKeys recs = .ok ks ∧ renderAll recs (sortScenarios ks) = .ok out ∧ c = 0 := by
  cases files with
  | nil => exact absurd rfl hne
  | cons f fs =>
    rw [mainRun] at h
    obtain ⟨items, hi, h2⟩ := bind_ok_inv h
    obtain ⟨recs, hr, h3⟩ := bind_ok_inv h2
    obtain ⟨ks, hk, h4⟩ := bind_ok_inv h3
    obtain ⟨out0, ho, h5⟩ := bind_ok_inv h4
    obtain ⟨h6, h7⟩ : out0 = out ∧ (0 : Nat) = c := by simpa using h5
    subst h6
    exact ⟨items, recs, ks, hi, hr, hk, ho, h7.symm⟩

theorem validFile_spec {pv : String × JValue} (h : validFile pv = true) :
    isArr pv.2 = true ∧
      ∀ v ∈ arrOf pv.2, ∃ fs, v = .obj fs ∧ validEntry fs = true ∧ validScenario fs = true := by
  obtain ⟨p, v⟩ := pv
  cases v with
  | arr xs =>
    rw [validFile] at h
    simp only [List.all_eq_true] at h
    refine ⟨rfl, ?_⟩
    intro v hv
    have := h v hv
    cases v with
    | obj fs =>
      rw [Bool.and_eq_true] at this
      exact ⟨fs, rfl, this.1, this.2⟩
    | _ => exact absurd this (by simp)
  | _ => exact absurd h (by simp [validFile])

/-- A run over valid files succeeds with exit code 0. -/
theorem mainRun_ok_of_valid {files : List (String × JValue)} (hne : files ≠ [])
    (h : ∀ pv ∈ files, validFile pv = true) :
    ∃ out, mainRun files = .ok (out, 0) := by
  have harr : ∀ pv ∈ files, isArr pv.2 = true := fun pv hpv => (validFile_spec (h pv hpv)).1
  have hitems := loadAll_ok harr
  have hobj : ∀ v ∈ files.flatMap (fun pv => arrOf pv.2), isObj v = true := by
    intro v hv
    rw [List.mem_flatMap] at hv
    obtain ⟨pv, hpv, hvm⟩ := hv
    obtain ⟨fs, rfl, h1, h2⟩ := (validFile_spec (h pv hpv)).2 v hvm
    rfl
  have hrecs := asDicts_ok hobj
  have hvalid : ∀ r ∈ (files.flatMap (fun pv => arrOf pv.2)).map objOf,
      validEntry r = true ∧ validScenario r = true := by
    intro r hr
    rw [List.mem_map] at hr
    obtain ⟨v, hv, rfl⟩ := hr
    rw [List.mem_flatMap] at hv
    obtain ⟨pv, hpv, hvm⟩ := hv
    obtain ⟨fs, rfl, h1, h2⟩ := (validFile_spec (h pv hpv)).2 v hvm
    exact ⟨h1, h2⟩
  have hks := scenarioKeys_ok (fun r hr => (hvalid r hr).2)
  obtain ⟨out, hout⟩ := renderAll_ok (fun r hr => (hvalid r hr).1)
    (sortScenarios (((files.flatMap (fun pv => arrOf pv.2)).map objOf).map scenarioKeyD))
  refine ⟨out, ?_⟩
  cases files with
  | nil => exact absurd rfl hne
  | cons f fs =>
    rw [mainRun, hitems, ok_bind, hrecs, ok_bind, hks, ok_bind, hout, ok_bind]

/-! The claims. -/

/-- C1: within a scenario, for every (impl, target) pair of the fixed order
other than `(rust, rust)`, a ratio line is printed exactly when both that
pair's record and the `(rust, rust)` record exist in the scenario's lookup
and the reference `ns_per_iter` (defaulting to `0.0` when absent) is strictly
positive; the printed line is exactly
`ratio vs rust (<impl>/<target>): <candidate ns / reference ns to 3 decimals>x`.
`specRatioLines` states this prescription literally, and the program's ratio
block and section output equal it. -/
theorem claim_ratio_lines (s : String) (entries : List Dict)
    (hv : ∀ e ∈ entries, validEntry e = true) :
    ratioLinesOf entries = .ok (specRatioLines entries) ∧
    renderSection s entries
      = .ok (("== " ++ s) :: colHeader :: (specRows entries ++ specRatioLines entries ++ [""])) :=
  ⟨ratioLinesOf_eq hv, renderSection_eq s hv⟩

theorem claim_ratio_lines_witness :
    ratioLinesOf
        [[("impl", JValue.str "rust"), ("target", JValue.str "rust"), ("ns_per_iter", JValue.int 5)],
         [("impl", JValue.str "moonbit"), ("target", JValue.str "native"), ("ns_per_iter", JValue.int 10)]]
      = .ok (specRatioLines
        [[("impl", JValue.str "rust"), ("target", JValue.str "rust"), ("ns_per_iter", JValue.int 5)],
         [("impl", JValue.str "moonbit"), ("target", JValue.str "native"), ("ns_per_iter", JValue.int 10)]]) :=
  (claim_ratio_lines "s1"
    [[("impl", JValue.str "rust"), ("target", JValue.str "rust"), ("ns_per_iter", JValue.int 5)],
     [("impl", JValue.str "moonbit"), ("target", JValue.str "native"), ("ns_per_iter", JValue.int 10)]]
    (by decide)).1

/-- C2: for every successful run, the printed section header lines are
exactly `== <scenario>` for the distinct scenario values of all loaded
records (a record without a `scenario` field contributing the empty string),
in strictly increasing lexicographic order, each exactly once. -/
theorem claim_section_headers (files : List (String × JValue)) (out : List String) (c : Nat)
    (h : mainRun files = .ok (out, c)) :
    ∃ items recs, loadAll files = .ok items ∧ asDicts items = .ok recs ∧
      out.filter isHeaderLine = (sortScenarios (recs.map scenarioKeyD)).map (fun s => "== " ++ s) ∧
      (sortScenarios (recs.map scenarioKeyD)).Pairwise (fun a b => strLtB a b = true) ∧
      (∀ s, s ∈ sortScenarios (recs.map scenarioKeyD) ↔ s ∈ recs.map scenarioKeyD) := by
  cases hfe : files with
  | nil =>
    subst hfe
    obtain ⟨h1, h2⟩ : [usageLine] = out ∧ (2 : Nat) = c := by
      rw [mainRun] at h
      simpa using h
    subst h1
    refine ⟨[], [], rfl, rfl, by decide, by decide, by simp [sortScenarios, sortStrings]⟩
  | cons f fs =>
    subst hfe
    obtain ⟨items, recs, ks, hi, hr, hk, ho, hc⟩ := mainRun_ok_inv (by simp) h
    have hmap := scenarioKeys_ok_map hk
    subst hmap
    exact ⟨items, recs, hi, hr, renderAll_filter ho,
      sortScenarios_sorted _, fun s => sortScenarios_mem _ s⟩

theorem claim_section_headers_witness :
    ∃ items recs,
      loadAll [("a", JValue.arr [JValue.obj [("scenario", JValue.str "z")], JValue.obj []])]
        = .ok items ∧
      asDicts items = .ok recs ∧
      (["== ", "impl       target          ns/iter         secs      iters", "",
        "== z", "impl       target          ns/iter         secs      iters", ""].filter isHeaderLine)
        = (sortScenarios (recs.map scenarioKeyD)).map (fun s => "== " ++ s) ∧
      (sortScenarios (recs.map scenarioKeyD)).Pairwise (fun a b => strLtB a b = true) ∧
      (∀ s, s ∈ sortScenarios (recs.map scenarioKeyD) ↔ s ∈ recs.map scenarioKeyD) :=
  claim_section_headers
    [("a", JValue.arr [JValue.obj [("scenario", JValue.str "z")], JValue.obj []])]
    ["== ", "impl       target          ns/iter         secs      iters", "",
     "== z", "impl       target          ns/iter         secs      iters", ""]
    0 (by rfl)

/-- C3: if any input document's top level is not a JSON array, the run aborts
with an error naming the first offending path in argument order, and no
report output is produced (the run's result is the error alone), regardless
of earlier paths having loaded successfully. -/
theorem claim_nonarray_aborts {files : List (String × JValue)} {p : String} {v : JValue}
    (h : files.find? (fun pv => !isArr pv.2) = some (p, v)) :
    mainRun files = .error (p ++ " is not a JSON array") := by
  have hload := loadAll_error_first h
  cases files with
  | nil => simp at h
  | cons f fs => rw [mainRun, hload, error_bind]

theorem claim_nonarray_aborts_witness :
    mainRun [("good", JValue.arr []), ("bad", JValue.obj [])]
      = .error ("bad" ++ " is not a JSON array") :=
  claim_nonarray_aborts (by rfl)

/-- C4: on every record whose present numeric fields are well-typed,
`format_row` succeeds and produces exactly the fixed-width line of the
specification — label and target left-aligned in 10, `ns_per_iter` right in
12 with 3 decimals, `total_secs` right in 12 with 6 decimals, `iters` right
in 10 — with absent fields defaulting to `0.0` / `0`, so missing fields never
make it fail. -/
theorem claim_format_row_layout (label target : String) (r : Dict)
    (h : validEntry r = true) :
    format_row label target r = .ok (rowText label target r) :=
  format_row_eq label target h

theorem claim_format_row_layout_witness :
    format_row "x" "y" [] = .ok (rowText "x" "y" []) :=
  claim_format_row_layout "x" "y" [] (by decide)

/-- C5: with zero input paths the program prints exactly the usage line and
exits with status 2; with one or more paths, a run that completes without
error exits with status 0, and on fully valid inputs the run does complete
with status 0. -/
theorem claim_usage_and_exit_codes :
    mainRun [] = .ok ([usageLine], 2) ∧
    (∀ (files : List (String × JValue)) (out : List String) (c : Nat),
      files ≠ [] → mainRun files = .ok (out, c) → c = 0) ∧
    (∀ files : List (String × JValue), files ≠ [] →
      (∀ pv ∈ files, validFile pv = true) → ∃ out, mainRun files = .ok (out, 0)) := by
  refine ⟨rfl, ?_, fun files hne h => mainRun_ok_of_valid hne h⟩
  intro files out c hne h
  obtain ⟨-, -, -, -, -, -, -, hc⟩ := mainRun_ok_inv hne h
  exact hc

theorem claim_usage_and_exit_codes_witness :
    ((0 : Nat) = 0) ∧ ∃ out, mainRun [("a", JValue.arr [JValue.obj []])] = .ok (out, 0) :=
  ⟨claim_usage_and_exit_codes.2.1 [("a", JValue.arr [])] [] 0 (by simp) (by rfl),
   claim_usage_and_exit_codes.2.2 [("a", JValue.arr [JValue.obj []])] (by simp) (by decide)⟩

/-- C6: within every scenario section the data rows follow exactly the fixed
comparison order `(rust, rust)`, `(moonbit, native)`, `(moonbit, wasm-gc)`:
each pair with a record in the scenario's lookup contributes its formatted
row in that position, and a pair without one is silently skipped, the section
being header, column header, these rows, the ratio lines, and a blank
line. -/
theorem claim_row_order_and_skip (s : String) (entries : List Dict)
    (hv : ∀ e ∈ entries, validEntry e = true) :
    renderSection s entries
      = .ok (("== " ++ s) :: colHeader ::
          ((order.filterMap (fun p => (lookupGet entries (strKey p.1 p.2)).map (rowText p.1 p.2)))
            ++ specRatioLines entries ++ [""])) := by
  have h := renderSection_eq s hv
  rwa [specRows] at h

theorem claim_row_order_and_skip_witness :
    renderSection "s2"
        [[("impl", JValue.str "moonbit"), ("target", JValue.str "wasm-gc"), ("iters", JValue.int 7)]]
      = .ok (("== " ++ "s2") :: colHeader ::
          ((order.filterMap (fun p =>
              (lookupGet [[("impl", JValue.str "moonbit"), ("target", JValue.str "wasm-gc"), ("iters", JValue.int 7)]]
                (strKey p.1 p.2)).map (rowText p.1 p.2)))
            ++ specRatioLines [[("impl", JValue.str "moonbit"), ("target", JValue.str "wasm-gc"), ("iters", JValue.int 7)]]
            ++ [""])) :=
  claim_row_order_and_skip "s2"
    [[("impl", JValue.str "moonbit"), ("target", JValue.str "wasm-gc"), ("iters", JValue.int 7)]]
    (by decide)

/-- C7: records of multiple input files concatenate in command-line argument
order, and the per-scenario (impl, target) lookup is last-write-wins: it
returns the last record in load order whose key matches, so only the last
duplicate is printed or used as the ratio reference. -/
theorem claim_concat_and_last_write_wins :
    (∀ files : List (String × JValue), (∀ pv ∈ files, isArr pv.2 = true) →
      loadAll files = .ok (files.flatMap (fun pv => arrOf pv.2))) ∧
    (∀ (entries : List Dict) (k : JValue × JValue),
      lookupGet entries k = (entries.filter (fun e => beqKey (keyOf e) k)).getLast?) :=
  ⟨fun _ h => loadAll_ok h, lookupGet_eq_getLast⟩

theorem claim_concat_and_last_write_wins_witness :
    loadAll [("a", JValue.arr [JValue.int 1]), ("b", JValue.arr [JValue.int 2])]
      = .ok ([("a", JValue.arr [JValue.int 1]), ("b", JValue.arr [JValue.int 2])].flatMap
          (fun pv => arrOf pv.2)) ∧
    lookupGet [[("impl", JValue.str "x")], [("impl", JValue.str "x"), ("n", JValue.int 2)]]
        (JValue.str "x", JValue.null)
      = ([[("impl", JValue.str "x")], [("impl", JValue.str "x"), ("n", JValue.int 2)]].filter
          (fun e => beqKey (keyOf e) (JValue.str "x", JValue.null))).getLast? :=
  ⟨claim_concat_and_last_write_wins.1 _ (by decide),
   claim_concat_and_last_write_wins.2 _ _⟩

/-- C8: `format_row` is deterministic and depends only on the label, the
target and the three formatted field values: two records agreeing on
`ns_per_iter`, `total_secs` and `iters` produce byte-identical rows. -/
theorem claim_format_row_deterministic (label target : String) (r1 r2 : Dict)
    (h1 : dictGet r1 "ns_per_iter" = dictGet r2 "ns_per_iter")
    (h2 : dictGet r1 "total_secs" = dictGet r2 "total_secs")
    (h3 : dictGet r1 "iters" = dictGet r2 "iters") :
    format_row label target r1 = format_row label target r2 := by
  rw [format_row, format_row]
  simp only [getField, h1, h2, h3]

theorem claim_format_row_deterministic_witness :
    format_row "a" "b" [("ns_per_iter", JValue.int 1)]
      = format_row "a" "b" [("ns_per_iter", JValue.int 1), ("note", JValue.str "x")] :=
  claim_format_row_deterministic "a" "b" _ _ rfl rfl rfl

/-- C9: every loaded record lands in exactly one scenario group — the one for
its scenario key (empty string when the field is absent) — and that key is
always present in the scenario list the groups are indexed by, because the
key set is computed from the same record list before partitioning. -/
theorem claim_grouping_total (recs : List Dict) (ks : List String)
    (h : scenarioKeys recs = .ok ks) :
    ∀ r ∈ recs, scenarioKeyD r ∈ sortScenarios ks ∧
      ∀ s, (r ∈ groupOf recs s ↔ s = scenarioKeyD r) := by
  intro r hr
  constructor
  · rw [sortScenarios_mem, scenarioKeys_ok_map h]
    exact List.mem_map_of_mem _ hr
  · intro s
    rw [mem_groupOf]
    constructor
    · rintro ⟨-, h2⟩
      exact h2.symm
    · rintro rfl
      exact ⟨hr, rfl⟩

theorem claim_grouping_total_witness :
    scenarioKeyD [("scenario", JValue.str "a")] ∈ sortScenarios ["a", ""] ∧
    ([("scenario", JValue.str "a")] ∈ groupOf [[("scenario", JValue.str "a")], []] "a"
      ↔ "a" = scenarioKeyD [("scenario", JValue.str "a")]) :=
  ⟨(claim_grouping_total [[("scenario", JValue.str "a")], []] ["a", ""] (by rfl)
      [("scenario", JValue.str "a")] (List.mem_cons_self _ _)).1,
   (claim_grouping_total [[("scenario", JValue.str "a")], []] ["a", ""] (by rfl)
      [("scenario", JValue.str "a")] (List.mem_cons_self _ _)).2 "a"⟩

/-- C10: the loader accepts any JSON array regardless of element types, but
if any loaded element is not an object the run fails with an unhandled
attribute error during grouping, before any output is produced — non-mapping
elements are not tolerated the way missing fields are. -/
theorem claim_loader_elements :
    (∀ files : List (String × JValue), (∀ pv ∈ files, isArr pv.2 = true) →
      ∃ items, loadAll files = .ok items) ∧
    (∀ (files : List (String × JValue)) (items : List JValue),
      files ≠ [] → loadAll files = .ok items → (∃ v ∈ items, isObj v = false) →
      mainRun files = .error "AttributeError: item has no attribute get") := by
  constructor
  · intro files h
    exact ⟨_, loadAll_ok h⟩
  · intro files items hne hl hex
    cases files with
    | nil => exact absurd rfl hne
    | cons f fs => rw [mainRun, hl, ok_bind, asDicts_error hex, error_bind]

theorem claim_loader_elements_witness :
    (∃ items, loadAll [("a", JValue.arr [JValue.str "oops"])] = .ok items) ∧
    mainRun [("a", JValue.arr [JValue.str "oops"])]
      = .error "AttributeError: item has no attribute get" :=
  ⟨claim_loader_elements.1 _ (by decide),
   claim_loader_elements.2 [("a", JValue.arr [JValue.str "oops"])] [JValue.str "oops"]
     (by simp) (by rfl) (by decide)⟩

end BenchCompare
